import Mathlib

/-!
Verification development for the KoDa GTFS-RT ingestion core
(src/pykoda/src/pykoda/data/getdata.py).

The pandas data model is embedded shallowly:
a cell value is a `Value` (scalar, NaN, nested record, or list of values);
a DataFrame with a default RangeIndex is a `Table`: an explicit row count
plus a list of named columns (pandas allows duplicate column names, so a
list of pairs, not a map).  Python exceptions are `Except PyErr`.
-/

/-- Cell values of a decoded GTFS-RT table.  `null` is NaN/None, `record`
is a JSON object (dict), `vlist` a JSON array.  Floats are not modelled:
no claim depends on them. -/
inductive Value where
  | null : Value
  | bool : Bool → Value
  | int : Int → Value
  | str : String → Value
  | record : List (String × Value) → Value
  | vlist : List Value → Value
deriving Repr

/-- Python exceptions that the embedded code can raise. -/
inductive PyErr where
  | typeError : PyErr
  | indexError : PyErr
  | keyError : PyErr
  | attrError : PyErr
  | tarError : PyErr
  | calledProcess : PyErr
  | valueError : String → PyErr
deriving Repr, DecidableEq

mutual

/-- Structural equality of cells, as pandas `drop_duplicates` compares
them (NaN compares equal to NaN there). -/
def Value.beq : Value → Value → Bool
  | .null, .null => true
  | .bool a, .bool b => a == b
  | .int a, .int b => a == b
  | .str a, .str b => a == b
  | .record fs, .record gs => fieldsBeq fs gs
  | .vlist a, .vlist b => listBeq a b
  | _, _ => false

def fieldsBeq : List (String × Value) → List (String × Value) → Bool
  | [], [] => true
  | (k, v) :: t, (k2, v2) :: t2 => k == k2 && Value.beq v v2 && fieldsBeq t t2
  | _, _ => false

def listBeq : List Value → List Value → Bool
  | [], [] => true
  | v :: t, v2 :: t2 => Value.beq v v2 && listBeq t t2
  | _, _ => false

end

instance : BEq Value := ⟨Value.beq⟩

/-- A pandas DataFrame with a default RangeIndex: a row count and named
columns.  Well-formed tables have every column of length `nrows`. -/
structure Table where
  nrows : Nat
  cols : List (String × List Value)
deriving Repr

/-- Column lookup `df[k]` (first match, as a string-keyed frame). -/
def getColD (t : Table) (k : String) : List Value :=
  match t.cols.find? (fun p => p.1 == k) with
  | some p => p.2
  | none => []

/-- Cell access `series[ix]` on a RangeIndexed series; a missing label is
a KeyError. -/
def getCell (col : List Value) (ix : Nat) : Except PyErr Value :=
  match col[ix]? with
  | some v => Except.ok v
  | none => Except.error PyErr.keyError

/-- Python subscript `v[0]`, as used by `_is_json`: scalars/NaN raise
TypeError, a string yields its first character (IndexError when empty),
a dict raises KeyError (its keys are strings, not 0), an empty list
raises IndexError. -/
def sub0 : Value → Except PyErr Value
  | Value.null => Except.error PyErr.typeError
  | Value.bool _ => Except.error PyErr.typeError
  | Value.int _ => Except.error PyErr.typeError
  | Value.str s => if s.isEmpty then Except.error PyErr.indexError else Except.ok (Value.str (s.take 1))
  | Value.record _ => Except.error PyErr.keyError
  | Value.vlist [] => Except.error PyErr.indexError
  | Value.vlist (v :: _) => Except.ok v

def isRecord : Value → Bool
  | Value.record _ => true
  | _ => false

/-- Whether a cell keeps its column's dtype non-object: ints, bools and
NaN live in numeric/bool dtypes; strings, lists and dicts force dtype
object. -/
def nonObjCell : Value → Bool
  | Value.int _ => true
  | Value.bool _ => true
  | Value.null => true
  | _ => false

/-- The `df[k].dtype == np.dtype('O')` test of `unpack_jsons`. -/
def is_object_dtype (col : List Value) : Bool :=
  col.any (fun v => !(nonObjCell v))

/-- Embedding of `_is_json` (getdata.py): `isinstance(series[0][0], dict)`
with only TypeError caught; other exceptions (Index/KeyError) propagate,
and an empty series raises on `series[0]`. -/
def isJson (col : List Value) : Except PyErr Bool :=
  match col with
  | [] => Except.error PyErr.keyError
  | v :: _ =>
    match sub0 v with
    | Except.error PyErr.typeError => Except.ok false
    | Except.error e => Except.error e
    | Except.ok w => Except.ok (isRecord w)

/-- The per-column selection test of `unpack_jsons`:
`df[k].dtype == np.dtype('O') and _is_json(df[k])`. -/
def colTest (col : List Value) : Except PyErr Bool :=
  if is_object_dtype col then isJson col else Except.ok false

/-- The `keys_to_sanitise` collection loop of `unpack_jsons` (left to
right over the columns); the identical loop at the end of the function
produces the leftover-structure warnings. -/
def jsonKeysGo : List (String × List Value) → Except PyErr (List String)
  | [] => Except.ok []
  | (k, col) :: rest =>
    match colTest col with
    | Except.error e => Except.error e
    | Except.ok b =>
      match jsonKeysGo rest with
      | Except.error e => Except.error e
      | Except.ok r => Except.ok (if b then k :: r else r)

mutual

/-- Dict flattening performed by `pd.json_normalize` on one record:
nested records are flattened with a dot separator; lists are left
verbatim; an empty nested record vanishes. -/
def flattenFields : List (String × Value) → List (String × Value)
  | [] => []
  | (k, v) :: rest => flattenOne k v ++ flattenFields rest

/-- Flattening of a single field: a nested record contributes its own
flattening under dotted names, anything else is kept verbatim. -/
def flattenOne (k : String) : Value → List (String × Value)
  | Value.record fs => (flattenFields fs).map (fun q => (k ++ "." ++ q.1, q.2))
  | v => [(k, v)]

end

/-- Column-name union in order of first appearance, as pandas aligns
columns when concatenating or normalizing heterogeneous records. -/
def unionNamesGo (acc : List String) : List String → List String
  | [] => acc
  | n :: rest => unionNamesGo (if acc.contains n then acc else acc ++ [n]) rest

def lookupField (r : List (String × Value)) (k : String) : Value :=
  match r.find? (fun q => q.1 == k) with
  | some q => q.2
  | none => Value.null

/-- Assemble normalized rows into a frame: columns are the union of the
rows' keys in first-appearance order, missing keys become NaN. -/
def buildTable (rows : List (List (String × Value))) : Table :=
  ⟨rows.length,
   (unionNamesGo [] (rows.flatMap (fun r => r.map Prod.fst))).map
     (fun nm => (nm, rows.map (fun r => lookupField r nm)))⟩

/-- Rows of `pd.json_normalize` applied to a list cell: every element
must be a record, otherwise pandas raises. -/
def recordRows : List Value → Except PyErr (List (List (String × Value)))
  | [] => Except.ok []
  | Value.record fs :: rest =>
    (match recordRows rest with
     | Except.error e => Except.error e
     | Except.ok rs => Except.ok (flattenFields fs :: rs))
  | _ :: _ => Except.error PyErr.attrError

/-- Embedding of `pd.json_normalize(df[k][ix])`: a list of records gives
one row per record, a single record one row, anything else raises. -/
def json_normalize : Value → Except PyErr Table
  | Value.vlist vs =>
    (match recordRows vs with
     | Except.error e => Except.error e
     | Except.ok rows => Except.ok (buildTable rows))
  | Value.record fs => Except.ok (buildTable [flattenFields fs])
  | _ => Except.error PyErr.attrError

def colNamesT (t : Table) : List String := t.cols.map Prod.fst

def findCol (t : Table) (nm : String) : Option (List Value) :=
  (t.cols.find? (fun p => p.1 == nm)).map Prod.snd

/-- Row-wise `pd.concat(..., axis='index').reset_index(drop=True)`:
column set is the union in order of appearance, missing stretches are
NaN-filled. -/
def vconcat (ts : List Table) : Table :=
  ⟨(ts.map Table.nrows).sum,
   (unionNamesGo [] (ts.flatMap colNamesT)).map
     (fun nm => (nm, ts.flatMap (fun t =>
        match findCol t nm with
        | some c => c
        | none => List.replicate t.nrows Value.null)))⟩

def padTo (m : Nat) (c : List Value) : List Value :=
  c ++ List.replicate (m - c.length) Value.null

/-- Column-wise `pd.concat(..., axis='columns')` of RangeIndexed frames:
the row index is the union, i.e. shorter frames are NaN-padded to the
longest. -/
def hconcat (ts : List Table) : Table :=
  ⟨(ts.map Table.nrows).foldl Nat.max 0,
   ts.flatMap (fun t => t.cols.map
     (fun p => (p.1, padTo ((ts.map Table.nrows).foldl Nat.max 0) p.2)))⟩

/-- Row selection `df.iloc[indexes].reset_index(drop=True)`. -/
def ilocT (t : Table) (ixs : List Nat) : Table :=
  ⟨ixs.length, t.cols.map (fun p => (p.1, ixs.map (fun i => p.2.getD i Value.null)))⟩

/-- Drop of the exploded source columns. -/
def droppedCols (t : Table) (keys : List String) : Table :=
  ⟨t.nrows, t.cols.filter (fun p => !(keys.contains p.1))⟩

/-- Inner loop body of `unpack_jsons`: for one row, normalize the cell of
each selected column in order. -/
def unpackRowGo (df : Table) (ix : Nat) : List String → Except PyErr (List Table)
  | [] => Except.ok []
  | k :: ks =>
    Except.bind (getCell (getColD df k) ix) (fun v =>
      Except.bind (json_normalize v) (fun u =>
        Except.bind (unpackRowGo df ix ks) (fun rest => Except.ok (u :: rest))))

/-- The `for ix in df.index: for k in keys_to_sanitise:` double loop. -/
def unpackCellsGo (df : Table) (keys : List String) : List Nat → Except PyErr (List (List Table))
  | [] => Except.ok []
  | ix :: rest =>
    Except.bind (unpackRowGo df ix keys) (fun row =>
      Except.bind (unpackCellsGo df keys rest) (fun rs => Except.ok (row :: rs)))

/-- The `indexes` accumulator of `unpack_jsons`: per row, per selected
column, the row's label repeated once per normalized child row. -/
def indexesOf : List Nat → List (List Table) → List Nat
  | ix :: ixs, row :: rows =>
    row.flatMap (fun t => List.replicate t.nrows ix) ++ indexesOf ixs rows
  | _, _ => []

def colOfCells (cells : List (List Table)) (j : Nat) : List Table :=
  cells.map (fun row => row.getD j ⟨0, []⟩)

/-- Column renaming `'_'.join((k, curr_name))` applied to an unpacked
frame. -/
def renameAllPrefixed (k : String) (t : Table) : Table :=
  ⟨t.nrows, t.cols.map (fun p => (k ++ "_" ++ p.1, p.2))⟩

/-- One unpacked frame per selected column: per-row normalizations are
concatenated row-wise, then prefixed with the source column's name. -/
def unpackedTablesGo (cells : List (List Table)) : List String → Nat → List Table
  | [], _ => []
  | k :: ks, j =>
    renameAllPrefixed k (vconcat (colOfCells cells j)) :: unpackedTablesGo cells ks (j + 1)

/-- The explosion block of `unpack_jsons` (executed when
`keys_to_sanitise` is nonempty): normalize every selected cell, drop the
source columns, replicate the parent rows by `indexes`, and concatenate
column-wise with the unpacked frames. -/
def explodeOnce (df : Table) (keys : List String) : Except PyErr Table :=
  Except.bind (unpackCellsGo df keys (List.range df.nrows)) (fun cells =>
    Except.ok (hconcat
      (ilocT (droppedCols df keys) (indexesOf (List.range df.nrows) cells)
        :: unpackedTablesGo cells keys 0)))

/-- Embedding of `unpack_jsons` (getdata.py): one round of explosion of
the columns whose first row holds a list of records, then a recheck of
the RESULT whose positives are only warned about (returned here as the
second component), not exploded further.  `Except.bind` propagates a
raised exception past the remaining statements, as in Python. -/
def unpack_jsons (df : Table) : Except PyErr (Table × List String) :=
  Except.bind (jsonKeysGo df.cols) (fun keys =>
    Except.bind (if keys.isEmpty then Except.ok df else explodeOnce df keys) (fun df2 =>
      Except.bind (jsonKeysGo df2.cols) (fun warns => Except.ok (df2, warns))))

lemma except_bind_ok {α β : Type} (a : α) (f : α → Except PyErr β) :
    Except.bind (Except.ok a) f = f a := rfl

lemma except_bind_err {α β : Type} (e : PyErr) (f : α → Except PyErr β) :
    Except.bind (Except.error e) f = Except.error e := rfl

/-!
Schema Normalizer and Deduplicator: `normalize_keys` and `sanitise_array`.
-/

/-- The fixed path-to-canonical-name lookup table of `normalize_keys`. -/
def renames : List (String × String) :=
  [("tripUpdate_trip_tripId", "trip_id"), ("tripUpdate_trip_startDate", "start_date"),
   ("tripUpdate_trip_directionId", "direction_id"), ("tripUpdate_trip_routeId", "route_id"),
   ("tripUpdate_trip_scheduleRelationship", "schedule_relationship"),
   ("tripUpdate_trip_startTime", "start_time"),
   ("tripUpdate_timestamp", "timestamp"), ("tripUpdate_vehicle_id", "vehicle_id"),
   ("stopSequence", "stop_sequence"), ("stopId", "stop_id"),
   ("scheduleRelationship", "schedule_relationship2"),
   ("vehicle_trip_tripId", "trip_id"), ("vehicle_trip_scheduleRelationship", "schedule_relationship"),
   ("vehicle_timestamp", "timestamp"), ("vehicle_vehicle_id", "vehicle_id"),
   ("vehicle_trip_startTime", "start_time"), ("vehicle_trip_startDate", "start_date"),
   ("vehicle_trip_routeId", "route_id"), ("vehicle_trip_directionId", "direction_id"),
   ("tripUpdate_stopTimeUpdate_stopSequence", "stop_sequence"),
   ("tripUpdate_stopTimeUpdate_stopId", "stop_id"),
   ("tripUpdate_stopTimeUpdate_arrival_delay", "arrival_delay"),
   ("tripUpdate_stopTimeUpdate_arrival_time", "arrival_time"),
   ("tripUpdate_stopTimeUpdate_departure_delay", "departure_delay"),
   ("tripUpdate_stopTimeUpdate_departure_time", "departure_time"),
   ("tripUpdate_stopTimeUpdate_arrival_uncertainty", "arrival_uncertainty"),
   ("tripUpdate_stopTimeUpdate_departure_uncertainty", "departure_uncertainty"),
   ("alert_activePeriod_start", "period_start"), ("alert_activePeriod_end", "period_end"),
   ("alert_informedEntity_routeId", "route_id"), ("alert_informedEntity_stopId", "stop_id"),
   ("alert_informedEntity_trip_tripId", "trip_id"),
   ("alert_informedEntity_trip_scheduleRelationship", "schedule_relationship"),
   ("alert_headerText_translation_text", "header_text"),
   ("alert_descriptionText_translation_text", "description_text")]

def applyRename (nm : String) : String :=
  match renames.lookup nm with
  | some c => c
  | none => nm

/-- Embedding of `normalize_keys`: `df.rename(columns=renames)`. -/
def normalize_keys (t : Table) : Table :=
  ⟨t.nrows, t.cols.map (fun p => (applyRename p.1, p.2))⟩

def isNullV : Value → Bool
  | Value.null => true
  | _ => false

def rowIsAllNull (t : Table) (i : Nat) : Bool :=
  t.cols.all (fun p => isNullV (p.2.getD i Value.null))

/-- The surviving row positions of `df.dropna(axis=0, how='all')`; note
that for a zero-column frame every row is vacuously all-NaN and is
dropped, as pandas does. -/
def keptRows (t : Table) : List Nat :=
  (List.range t.nrows).filter (fun i => !(rowIsAllNull t i))

def dropnaRows (t : Table) : Table := ilocT t (keptRows t)

/-- Embedding of `df.dropna(axis=1, how='all')`: a column whose surviving
values are all NaN (vacuously, any column of a zero-row frame) is
dropped. -/
def dropnaCols (t : Table) : Table :=
  ⟨t.nrows, t.cols.filter (fun p => !(p.2.all isNullV))⟩

/-- Embedding of `df.drop(columns='level_0', errors='ignore')`. -/
def dropLevel0 (t : Table) : Table :=
  ⟨t.nrows, t.cols.filter (fun p => !(p.1 == "level_0"))⟩

/-- The `contextlib.suppress(ValueError)` block of `sanitise_array`: each
`keys.remove(name)` removes the first occurrence, but the first missing
name raises ValueError, which makes `suppress` abandon the REST of the
block — later names are then not removed. -/
def removeChain (keys : List String) : List String → List String
  | [] => keys
  | n :: rest => if keys.contains n then removeChain (keys.erase n) rest else keys

/-- The fixed removal sequence of `sanitise_array`, in source order. -/
def volatileSeq : List String :=
  ["timestamp", "index", "arrival_delay", "arrival_time",
   "departure_delay", "departure_time", "arrival_uncertainty", "departure_uncertainty"]

def rowProj (t : Table) (keys : List String) (i : Nat) : List Value :=
  keys.map (fun k => (getColD t k).getD i Value.null)

def laterDup (t : Table) (keys : List String) (i : Nat) : Bool :=
  (List.range t.nrows).any (fun j => decide (i < j) && (rowProj t keys j == rowProj t keys i))

/-- Embedding of `df.drop_duplicates(subset=keys, keep='last')`: a row is
kept iff no LATER row agrees with it on the subset columns; surviving
rows keep their order. -/
def dupKeepLast (t : Table) (keys : List String) : Table :=
  ilocT t ((List.range t.nrows).filter (fun i => !(laterDup t keys i)))

/-- Embedding of `sanitise_array` (getdata.py): normalize names, drop
all-NaN rows then all-NaN columns, drop a leftover `level_0` index
column, then deduplicate keeping the last, on all columns minus
whatever prefix of `volatileSeq` the suppress block managed to remove. -/
def sanitise_array (t : Table) : Table :=
  dupKeepLast (dropLevel0 (dropnaCols (dropnaRows (normalize_keys t))))
    (removeChain (colNamesT (dropLevel0 (dropnaCols (dropnaRows (normalize_keys t))))) volatileSeq)

/-!
Extraction Orchestrator internals: the `merge_files` transforms.
-/

/-- Substring containment (Python `needle in s`) on character lists. -/
def substrIn (n : List Char) : List Char → Bool
  | [] => n.isEmpty
  | c :: t => n.isPrefixOf (c :: t) || substrIn n t

/-- The cast-selection of `merge_files`: any column whose name contains
the word timestamp, plus the column named id, is forced to int64. -/
def castCond (k : String) : Bool :=
  substrIn ("timestamp".data) k.data || k == "id"

def parseNatGo (acc : Nat) : List Char → Option Nat
  | [] => some acc
  | c :: t => if c.isDigit then parseNatGo (acc * 10 + (c.toNat - 48)) t else none

/-- Parse of a plain decimal integer literal, as `int(...)` accepts for
the string values reaching the forced cast. -/
def parseIntL : List Char → Option Int
  | [] => none
  | '-' :: t => if t.isEmpty then none else (parseNatGo 0 t).map (fun n => -(n : Int))
  | c :: t => (parseNatGo 0 (c :: t)).map (fun n => (n : Int))

/-- Embedding of an `np.int64` cast of one cell: ints pass, integer
strings parse, everything else (NaN, non-numeric strings, nested data)
raises.  `True`/`False` cast to 1/0. -/
def castValue : Value → Except PyErr Value
  | Value.int n => Except.ok (Value.int n)
  | Value.bool b => Except.ok (Value.int (if b then 1 else 0))
  | Value.str s =>
    (match parseIntL s.data with
     | some n => Except.ok (Value.int n)
     | none => Except.error (PyErr.valueError ("invalid literal for int64")))
  | Value.null => Except.error (PyErr.valueError ("cannot convert NaN to int64"))
  | _ => Except.error PyErr.typeError

def castColumnGo : List Value → Except PyErr (List Value)
  | [] => Except.ok []
  | v :: t =>
    match castValue v with
    | Except.error e => Except.error e
    | Except.ok w =>
      match castColumnGo t with
      | Except.error e => Except.error e
      | Except.ok ws => Except.ok (w :: ws)

def astypeGo : List (String × List Value) → Except PyErr (List (String × List Value))
  | [] => Except.ok []
  | (nm, c) :: rest =>
    match (if castCond nm then castColumnGo c else Except.ok c) with
    | Except.error e => Except.error e
    | Except.ok c2 =>
      match astypeGo rest with
      | Except.error e => Except.error e
      | Except.ok r => Except.ok ((nm, c2) :: r)

/-- Embedding of `merged_df.astype(castings)` where `castings` maps every
timestamp-named column and `id` to `np.int64`. -/
def astypeT (t : Table) : Except PyErr Table :=
  match astypeGo t.cols with
  | Except.error e => Except.error e
  | Except.ok cs => Except.ok ⟨t.nrows, cs⟩

/-- Embedding of the dots-to-underscores column rename of `merge_files`. -/
def renameDots (t : Table) : Table :=
  ⟨t.nrows, t.cols.map (fun p => (String.replace p.1 (".") ("_"), p.2))⟩

/-- pandas `DataFrame.empty`: true when EITHER axis has length zero. -/
def pdEmpty (t : Table) : Bool :=
  t.nrows == 0 || t.cols.isEmpty

/-- The dummy boolean column `merged_df['_'] = np.zeros(len(merged_df),
dtype=np.bool_)`. -/
def addDummy (t : Table) : Table :=
  ⟨t.nrows, t.cols ++ [("_", List.replicate t.nrows (Value.bool false))]⟩

/-- The Feather-workaround branch of `merge_files`. -/
def placeholderStep (t : Table) : Table :=
  if pdEmpty t then addDummy t else t

/-- The tail of `merge_files` after concatenation (the trailing
`reset_index`, which only prepends the row-label column, is omitted: no
claim concerns it): drop all-NaN rows, force the int64 casts, rename
dotted columns, run `sanitise_array`, and insert the placeholder column
when the frame is empty.  A cast failure aborts before anything is
persisted. -/
def mergeFinish (t : Table) : Except PyErr Table :=
  match astypeT (dropnaRows t) with
  | Except.error e => Except.error e
  | Except.ok t2 => Except.ok (placeholderStep (sanitise_array (renameDots t2)))

/-- Whether `merge_files` reaches `to_feather`: the cache-unit file is
written only when every transform succeeded. -/
def merge_files_run (t : Table) : Except PyErr Table × Bool :=
  match mergeFinish t with
  | Except.error e => (Except.error e, false)
  | Except.ok u => (Except.ok u, true)

def dupNeedle : List Char := ("Duplicate").data

/-- The archive-member selection of `merge_files`:
`name.endswith(".pb") and 'Duplicate' not in name`. -/
def isSelected (n : String) : Bool :=
  (".pb".data).reverse.isPrefixOf n.data.reverse && !(substrIn dupNeedle n.data)

def selectFiles (names : List String) : List String := names.filter isSelected

/-!
Archive Fetcher: `bz2_to_tar` and the pre-merge control flow of
`get_data`.  The external world (7z exit status, tarfile success, what
the decompression left on disk, the downloaded bytes) is an explicit
environment; the body of the deferred `merge_files` task is abstracted
to its outcome here, its internal transforms being embedded above.
-/

/-- Environment of one `bz2_to_tar` call. -/
structure ConvEnv where
  utilitySucceeds : Bool
  repackSucceeds : Bool
  artifactCreated : Bool
  artifactIsDir : Bool
deriving Repr, DecidableEq

/-- Work-directory state threaded through the `finally` block. -/
structure WorkState where
  artifactExists : Bool
  slept : Bool
deriving Repr, DecidableEq

/-- The `finally` block of `bz2_to_tar`: if the decompressed artifact
exists, wait briefly, then delete it (rmtree for a directory, unlink for
a file). -/
def runFinally (s : WorkState) : WorkState :=
  if s.artifactExists then { artifactExists := false, slept := true } else s

/-- Outcome of `bz2_to_tar`: the returned value or propagated exception,
and the work-directory state after `finally`. -/
structure ConvResult where
  result : Except PyErr (Option String)
  artifactRemains : Bool
  sleptBeforeDelete : Bool
deriving Repr

/-- Embedding of `bz2_to_tar` (getdata.py).  The try body: a non-zero 7z
exit raises CalledProcessError, which the `except` clause catches,
prints, and turns into a `None` RETURN; a repackaging (tarfile) failure
is not caught and propagates.  The `finally` cleanup runs on all three
exits. -/
def bz2_to_tar (env : ConvEnv) : ConvResult :=
  let body : Except PyErr (Option String) :=
    if env.utilitySucceeds then
      (if env.repackSucceeds then Except.ok (some ("tar_file")) else Except.error PyErr.tarError)
    else Except.ok none
  let s1 := runFinally { artifactExists := env.artifactCreated, slept := false }
  { result := body, artifactRemains := s1.artifactExists, sleptBeforeDelete := s1.slept }

/-- Observable actions of one `get_data` run, in order. -/
inductive Act where
  | download : Act
  | checkBytes : Act
  | invokeUtility : Act
  | openArchive : Act
  | writeCache : Act
deriving Repr, DecidableEq

/-- Environment of one `get_data` call: the first bytes of the downloaded
file, the conversion environment, and the (abstract) outcome of the
deferred `merge_files` body when it gets a real archive path. -/
structure GEnv where
  bytes : List Char
  conv : ConvEnv
  mergeOutcome : Except PyErr Unit

def errNeedle : List Char := ("error").data

/-- The characters Python strips from the embedded message:
`msg.strip(b'\x7b\x7d" ')`. -/
def stripSet : List Char := ['\x7b', '\x7d', '"', ' ']

/-- The error message `get_data` embeds in its ValueError: the first 80
bytes of the download, stripped of braces, quotes and blanks at both
ends. -/
def stripMsg (bytes : List Char) : List Char :=
  (((bytes.take 80).dropWhile (fun c => stripSet.contains c)).reverse.dropWhile
    (fun c => stripSet.contains c)).reverse

/-- Embedding of `get_data` (getdata.py) up to and around the deferred
`merge_files` task: after the download, the first 10 bytes are checked
for the word error and a hit raises ValueError with the stripped message
BEFORE `bz2_to_tar` is called and before the merge task (whose final
step writes the cache file) is created.  When `bz2_to_tar` swallows a
utility failure and returns None, `merge_files` raises on
`tarfile.open(None)`. -/
def get_data (env : GEnv) : Except PyErr Unit × List Act :=
  if substrIn errNeedle (env.bytes.take 10) then
    (Except.error (PyErr.valueError (String.mk (stripMsg env.bytes))), [Act.download, Act.checkBytes])
  else
    match (bz2_to_tar env.conv).result with
    | Except.error e => (Except.error e, [Act.download, Act.checkBytes, Act.invokeUtility])
    | Except.ok none =>
      (Except.error (PyErr.valueError ("nothing to open")),
       [Act.download, Act.checkBytes, Act.invokeUtility, Act.openArchive])
    | Except.ok (some _) =>
      match env.mergeOutcome with
      | Except.error e =>
        (Except.error e, [Act.download, Act.checkBytes, Act.invokeUtility, Act.openArchive])
      | Except.ok _ =>
        (Except.ok (),
         [Act.download, Act.checkBytes, Act.invokeUtility, Act.openArchive, Act.writeCache])

/-!
Claim theorems.
-/

/-- A two-row normalized table whose rows differ only in `arrival_delay`
(and `timestamp`), with no `index` column — the shape `sanitise_array`
actually receives from `merge_files`, which resets the index only later. -/
def exC1 : Table :=
  ⟨2, [("trip_id", [Value.str ("A"), Value.str ("A")]),
       ("timestamp", [Value.int 1, Value.int 2]),
       ("arrival_delay", [Value.int 5, Value.int 7])]⟩

/-- Claim C1: the Deduplicator is claimed to drop rows equal on all
columns except the volatile set and keep the last.  On `exC1` the code
keeps BOTH rows: `keys.remove('index')` raises ValueError inside
`contextlib.suppress`, which abandons the block before any of the
volatile delay/time fields is removed, so `arrival_delay` stays in the
dedup key — contradicting the code's own comment that those fields are
to be ignored.  The third conjunct exhibits the dedup key actually used. -/
theorem claim_C1_dedup_bug :
    sanitise_array exC1 = exC1 ∧ (sanitise_array exC1).nrows = 2
    ∧ removeChain [("trip_id"), ("timestamp"), ("arrival_delay")] volatileSeq
        = [("trip_id"), ("arrival_delay")] :=
  ⟨rfl, rfl, rfl⟩

/-- Claim C8: on every exit path of `bz2_to_tar` (successful repackaging,
utility failure, or repackaging failure — `env` ranges over all of them)
the `finally` block deletes the intermediate decompressed artifact if it
exists, after the short `time.sleep` delay. -/
theorem claim_C8_cleanup (env : ConvEnv) :
    (bz2_to_tar env).artifactRemains = false
    ∧ (env.artifactCreated = true → (bz2_to_tar env).sleptBeforeDelete = true) := by
  unfold bz2_to_tar runFinally
  cases h : env.artifactCreated <;> simp [h]

/-- Closed instance of `claim_C8_cleanup` on the repackaging-failure
path with an existing artifact. -/
theorem claim_C8_witness :
    (bz2_to_tar ⟨true, false, true, true⟩).artifactRemains = false
    ∧ (bz2_to_tar ⟨true, false, true, true⟩).sleptBeforeDelete = true :=
  ⟨(claim_C8_cleanup ⟨true, false, true, true⟩).1,
   (claim_C8_cleanup ⟨true, false, true, true⟩).2 rfl⟩

/-- Conversion environment in which the decompression utility exits
non-zero. -/
def envC3 : ConvEnv := ⟨false, true, true, false⟩

/-- Claim C3 counterexample: when 7z fails, `bz2_to_tar` does NOT raise —
the `except subprocess.CalledProcessError` clause catches the failure,
prints, and RETURNS `None`, so the conversion step yields a normal
(non-exceptional) null result rather than an ExtractionError. -/
theorem claim_C3_counterexample :
    (bz2_to_tar envC3).result = Except.ok none := rfl

/-- Claim C3 (amended): on utility failure the conversion step swallows
the error and returns None; the unit build still aborts — `merge_files`
raises when handed the None archive path — and no cache file is written,
but no error propagates from the conversion step itself. -/
theorem claim_C3_amended (env : GEnv)
    (h1 : substrIn errNeedle (env.bytes.take 10) = false)
    (h2 : env.conv.utilitySucceeds = false) :
    (bz2_to_tar env.conv).result = Except.ok none
    ∧ (get_data env).1 = Except.error (PyErr.valueError ("nothing to open"))
    ∧ Act.writeCache ∉ (get_data env).2
    ∧ Act.invokeUtility ∈ (get_data env).2 := by
  have hb : (bz2_to_tar env.conv).result = Except.ok none := by
    unfold bz2_to_tar; rw [h2]; rfl
  have hg : get_data env
      = (Except.error (PyErr.valueError ("nothing to open")),
         [Act.download, Act.checkBytes, Act.invokeUtility, Act.openArchive]) := by
    unfold get_data
    rw [h1, hb]
    rfl
  refine ⟨hb, ?_, ?_, ?_⟩ <;> rw [hg] <;> decide

/-- Closed instance of `claim_C3_amended`. -/
theorem claim_C3_witness :
    (bz2_to_tar envC3).result = Except.ok none
    ∧ (get_data ⟨("PK").data, envC3, Except.ok ()⟩).1
        = Except.error (PyErr.valueError ("nothing to open"))
    ∧ Act.writeCache ∉ (get_data ⟨("PK").data, envC3, Except.ok ()⟩).2
    ∧ Act.invokeUtility ∈ (get_data ⟨("PK").data, envC3, Except.ok ()⟩).2 :=
  claim_C3_amended ⟨("PK").data, envC3, Except.ok ()⟩ (by decide) rfl

/-- The first bytes of a provider error document. -/
def errDocPrefix : List Char := ['\x7b', '"', 'e', 'r', 'r', 'o', 'r', '"', ':']

/-- Claim C4: a download starting with an error document makes `get_data`
raise the ValueError carrying the stripped embedded message BEFORE the
decompression utility is ever invoked and before the merge task that
writes the cache file is created. -/
theorem claim_C4_upstream_error (env : GEnv)
    (h : errDocPrefix.isPrefixOf env.bytes = true) :
    (get_data env).1 = Except.error (PyErr.valueError (String.mk (stripMsg env.bytes)))
    ∧ Act.invokeUtility ∉ (get_data env).2 ∧ Act.writeCache ∉ (get_data env).2 := by
  obtain ⟨bytes, conv, mo⟩ := env
  obtain ⟨rest, hr⟩ : ∃ t, errDocPrefix ++ t = bytes := List.isPrefixOf_iff_prefix.mp h
  subst hr
  refine ⟨rfl, ?_, ?_⟩
  · show Act.invokeUtility ∉ [Act.download, Act.checkBytes]
    decide
  · show Act.writeCache ∉ [Act.download, Act.checkBytes]
    decide

/-- Closed instance of `claim_C4_upstream_error` on a concrete error
document. -/
theorem claim_C4_witness :
    (get_data ⟨errDocPrefix ++ (" \"no data\"").data, envC3, Except.ok ()⟩).1
      = Except.error (PyErr.valueError
          (String.mk (stripMsg (errDocPrefix ++ (" \"no data\"").data))))
    ∧ Act.invokeUtility ∉ (get_data ⟨errDocPrefix ++ (" \"no data\"").data, envC3, Except.ok ()⟩).2
    ∧ Act.writeCache ∉ (get_data ⟨errDocPrefix ++ (" \"no data\"").data, envC3, Except.ok ()⟩).2 :=
  claim_C4_upstream_error ⟨errDocPrefix ++ (" \"no data\"").data, envC3, Except.ok ()⟩ (by decide)

/-- Claim C9: a duplicate-marked member is excluded from the decode list,
so the file selection — and hence the total decoded row count, for any
per-file row counting — is identical with or without it, wherever it
sits in the archive listing. -/
theorem claim_C9_duplicates (pre post : List String) (d : String) (rowsOf : String → Nat)
    (h : substrIn dupNeedle d.data = true) :
    selectFiles (pre ++ d :: post) = selectFiles (pre ++ post)
    ∧ ((selectFiles (pre ++ d :: post)).map rowsOf).sum
        = ((selectFiles (pre ++ post)).map rowsOf).sum
    ∧ d ∉ selectFiles (pre ++ d :: post) := by
  have hd : isSelected d = false := by
    unfold isSelected; rw [h]; simp
  have he : selectFiles (pre ++ d :: post) = selectFiles (pre ++ post) := by
    unfold selectFiles
    rw [List.filter_append, List.filter_append, List.filter_cons_of_neg (by simp [hd])]
  refine ⟨he, by rw [he], ?_⟩
  intro hmem
  have hsel := List.of_mem_filter hmem
  rw [hd] at hsel
  exact absurd hsel (by simp)

/-- Closed instance of `claim_C9_duplicates`. -/
theorem claim_C9_witness :
    selectFiles [("a.pb"), ("b-Duplicate.pb"), ("c.txt")]
      = selectFiles ([("a.pb")] ++ [("c.txt")])
    ∧ ((selectFiles [("a.pb"), ("b-Duplicate.pb"), ("c.txt")]).map (fun _ => 5)).sum
        = ((selectFiles ([("a.pb")] ++ [("c.txt")])).map (fun _ => 5)).sum
    ∧ ("b-Duplicate.pb") ∉ selectFiles [("a.pb"), ("b-Duplicate.pb"), ("c.txt")] :=
  claim_C9_duplicates [("a.pb")] [("c.txt")] ("b-Duplicate.pb") (fun _ => 5) (by decide)

lemma castValue_int (v w : Value) (h : castValue v = Except.ok w) : ∃ n : Int, w = Value.int n := by
  cases v <;> simp only [castValue] at h
  · exact absurd h (by simp)
  · exact ⟨_, (Except.ok.injEq _ _ ▸ h).symm⟩
  · exact ⟨_, (Except.ok.injEq _ _ ▸ h).symm⟩
  · rename_i s
    cases hs : parseIntL s.data with
    | none => rw [hs] at h; exact absurd h (by simp)
    | some n => rw [hs] at h; exact ⟨n, by injection h with h2; exact h2.symm⟩
  · exact absurd h (by simp)
  · exact absurd h (by simp)

lemma castColumnGo_ints (c c2 : List Value) (h : castColumnGo c = Except.ok c2) :
    ∀ v ∈ c2, ∃ n : Int, v = Value.int n := by
  induction c generalizing c2 with
  | nil =>
    unfold castColumnGo at h
    injection h with h2
    subst h2
    intro v hv
    exact absurd hv (by simp)
  | cons a tl ih =>
    unfold castColumnGo at h
    cases ha : castValue a with
    | error e => rw [ha] at h; exact absurd h (by simp)
    | ok w =>
      rw [ha] at h
      cases htl : castColumnGo tl with
      | error e => rw [htl] at h; exact absurd h (by simp)
      | ok ws =>
        rw [htl] at h
        injection h with h2
        subst h2
        intro v hv
        rcases List.mem_cons.mp hv with h3 | h3
        · subst h3; exact castValue_int a v ha
        · exact ih ws htl v h3

lemma astypeGo_ints (cols cols2 : List (String × List Value)) (h : astypeGo cols = Except.ok cols2) :
    ∀ p ∈ cols2, castCond p.1 = true → ∀ v ∈ p.2, ∃ n : Int, v = Value.int n := by
  induction cols generalizing cols2 with
  | nil =>
    unfold astypeGo at h
    injection h with h2
    subst h2
    intro p hp
    exact absurd hp (by simp)
  | cons a tl ih =>
    obtain ⟨nm, c⟩ := a
    unfold astypeGo at h
    cases hcc : castCond nm with
    | true =>
      rw [hcc] at h
      simp only [if_true] at h
      cases hcg : castColumnGo c with
      | error e => rw [hcg] at h; exact absurd h (by simp)
      | ok c2 =>
        rw [hcg] at h
        cases htl : astypeGo tl with
        | error e => rw [htl] at h; exact absurd h (by simp)
        | ok r =>
          rw [htl] at h
          injection h with h2
          subst h2
          intro p hp hpc v hv
          rcases List.mem_cons.mp hp with h3 | h3
          · subst h3; exact castColumnGo_ints c c2 hcg v hv
          · exact ih r htl p h3 hpc v hv
    | false =>
      rw [hcc] at h
      simp only [Bool.false_eq_true, if_false] at h
      cases htl : astypeGo tl with
      | error e => rw [htl] at h; exact absurd h (by simp)
      | ok r =>
        rw [htl] at h
        injection h with h2
        subst h2
        intro p hp hpc v hv
        rcases List.mem_cons.mp hp with h3 | h3
        · subst h3; rw [hpc] at hcc; exact absurd hcc (by simp)
        · exact ih r htl p h3 hpc v hv

/-- Claim C6: after the forced `astype`, every column whose name contains
the word timestamp, and the `id` column, holds only 64-bit integers; and
a cast failure aborts `merge_files` with that error before `to_feather`
runs, so no cache-unit file is produced. -/
theorem claim_C6_force_casts (t : Table) :
    (∀ res, astypeT (dropnaRows t) = Except.ok res →
      ∀ p ∈ res.cols, castCond p.1 = true → ∀ v ∈ p.2, ∃ n : Int, v = Value.int n)
    ∧ (∀ e, astypeT (dropnaRows t) = Except.error e →
      mergeFinish t = Except.error e ∧ merge_files_run t = (Except.error e, false)) := by
  constructor
  · intro res hres
    unfold astypeT at hres
    cases hag : astypeGo (dropnaRows t).cols with
    | error e => rw [hag] at hres; exact absurd hres (by simp)
    | ok cs =>
      rw [hag] at hres
      injection hres with h2
      subst h2
      exact astypeGo_ints (dropnaRows t).cols cs hag
  · intro e he
    have hm : mergeFinish t = Except.error e := by
      unfold mergeFinish
      rw [he]
    refine ⟨hm, ?_⟩
    unfold merge_files_run
    rw [hm]

/-- Closed instance of `claim_C6_force_casts`: a non-numeric `id` value
aborts the build with the cast error and no cache write. -/
theorem claim_C6_witness :
    mergeFinish ⟨1, [(("id"), [Value.str ("x")])]⟩
      = Except.error (PyErr.valueError ("invalid literal for int64"))
    ∧ merge_files_run ⟨1, [(("id"), [Value.str ("x")])]⟩
      = (Except.error (PyErr.valueError ("invalid literal for int64")), false) :=
  (claim_C6_force_casts ⟨1, [(("id"), [Value.str ("x")])]⟩).2
    (PyErr.valueError ("invalid literal for int64")) rfl

lemma laterDup_last (u : Table) (keys : List String) (m : Nat) (hm : u.nrows = m + 1) :
    laterDup u keys m = false := by
  unfold laterDup
  rw [List.any_eq_false]
  intro j hj
  rw [hm] at hj
  have hjm : j ≤ m := Nat.lt_succ_iff.mp (List.mem_range.mp hj)
  simp [Nat.not_lt.mpr hjm]

lemma dup_kept_ne_nil (u : Table) (keys : List String) (h : u.nrows ≠ 0) :
    (List.range u.nrows).filter (fun i => !(laterDup u keys i)) ≠ [] := by
  obtain ⟨m, hm⟩ : ∃ m, u.nrows = m + 1 :=
    ⟨u.nrows - 1, (Nat.succ_pred_eq_of_pos (Nat.pos_of_ne_zero h)).symm⟩
  apply List.ne_nil_of_mem (a := m)
  rw [List.mem_filter]
  refine ⟨?_, ?_⟩
  · rw [hm]; exact List.mem_range.mpr (Nat.lt_succ_self m)
  · rw [laterDup_last u keys m hm]; rfl

lemma sanitise_cols_of_nrows_zero (t : Table) (h : (sanitise_array t).nrows = 0) :
    (sanitise_array t).cols = [] := by
  unfold sanitise_array dupKeepLast ilocT at h ⊢
  set u := dropLevel0 (dropnaCols (dropnaRows (normalize_keys t))) with hu
  set keys := removeChain (colNamesT u) volatileSeq with hk
  simp only at h
  have hkept : (List.range u.nrows).filter (fun i => !(laterDup u keys i)) = [] :=
    List.length_eq_zero.mp h
  have hun : u.nrows = 0 := by
    by_contra hne
    exact dup_kept_ne_nil u keys hne hkept
  -- with zero surviving rows, every column of the row-dropped frame is
  -- empty, so the column-dropping pass removed them all
  have hcols : u.cols = [] := by
    rw [hu]
    unfold dropLevel0 dropnaCols
    have hz : (dropnaRows (normalize_keys t)).nrows = 0 := hun
    unfold dropnaRows ilocT at hz ⊢
    have hkr : keptRows (normalize_keys t) = [] := List.length_eq_zero.mp hz
    rw [hkr]
    rw [List.filter_eq_nil_iff]
    intro p hp
    rw [List.mem_filter] at hp
    obtain ⟨hpm, hpa⟩ := hp
    obtain ⟨q, hq, rfl⟩ := List.mem_map.mp hpm
    simp at hpa
  rw [hcols]
  simp

/-- Claim C7: at the point of the Feather workaround, a frame fresh out
of `sanitise_array` is pandas-`empty` exactly when it has zero columns
(zero surviving rows force zero columns there), so the placeholder
boolean column is inserted exactly for a column-less result, and a
result that still has columns is persisted unchanged. -/
theorem claim_C7_placeholder (t : Table) :
    (pdEmpty (sanitise_array t) = true ↔ (sanitise_array t).cols = [])
    ∧ (placeholderStep (sanitise_array t) = sanitise_array t ↔ (sanitise_array t).cols ≠ []) := by
  have hiff : pdEmpty (sanitise_array t) = true ↔ (sanitise_array t).cols = [] := by
    constructor
    · intro h
      unfold pdEmpty at h
      rcases Bool.or_eq_true _ _ |>.mp h with h1 | h1
      · exact sanitise_cols_of_nrows_zero t (by simpa using h1)
      · simpa [List.isEmpty_iff] using h1
    · intro h
      unfold pdEmpty
      rw [h]
      simp
  refine ⟨hiff, ?_, ?_⟩
  · intro hstep hnil
    have hpe : pdEmpty (sanitise_array t) = true := hiff.mpr hnil
    unfold placeholderStep at hstep
    rw [hpe] at hstep
    simp only [if_true] at hstep
    unfold addDummy at hstep
    have := congrArg Table.cols hstep
    rw [hnil] at this
    simp at this
  · intro hne
    have hpe : pdEmpty (sanitise_array t) = false := by
      cases hb : pdEmpty (sanitise_array t) with
      | false => rfl
      | true => exact absurd (hiff.mp hb) hne
    unfold placeholderStep
    rw [hpe]
    rfl

/-- Closed instance of `claim_C7_placeholder`: a one-column table whose
single row is all-NaN collapses to a zero-column frame and takes the
placeholder branch. -/
theorem claim_C7_witness :
    (sanitise_array ⟨1, [(("a"), [Value.null])]⟩).cols = []
    ∧ placeholderStep (sanitise_array ⟨1, [(("a"), [Value.null])]⟩)
        ≠ sanitise_array ⟨1, [(("a"), [Value.null])]⟩ := by
  refine ⟨(claim_C7_placeholder ⟨1, [(("a"), [Value.null])]⟩).1.mp rfl, ?_⟩
  intro hstep
  exact ((claim_C7_placeholder ⟨1, [(("a"), [Value.null])]⟩).2.mp hstep)
    ((claim_C7_placeholder ⟨1, [(("a"), [Value.null])]⟩).1.mp rfl)

/-- A nested-inside-nested entity: the stop-time-update-like field holds
records whose own field is again a list of records. -/
def exC2 : Table :=
  ⟨1, [(("a"), [Value.vlist [Value.record
      [(("y"), Value.vlist [Value.record [(("z"), Value.int 1)]])]]])]⟩

/-- The table `unpack_jsons` actually produces from `exC2`. -/
def exC2out : Table :=
  ⟨1, [(("a_y"), [Value.vlist [Value.record [(("z"), Value.int 1)]]])]⟩

/-- Claim C2 counterexample: one round of explosion leaves `a_y` still
holding a list of records — the structured-column check on the RESULT is
nonempty (the column is warned about, not re-exploded), so the process
does not repeat until no structured column remains. -/
theorem claim_C2_counterexample :
    unpack_jsons exC2 = Except.ok (exC2out, [("a_y")])
    ∧ jsonKeysGo exC2out.cols = Except.ok [("a_y")] := ⟨rfl, rfl⟩

/-- Claim C2 (amended): the explosion is a single pass; the result is
rechecked with the same structured-column test, and the warning list is
exactly the set of still-structured columns of the OUTPUT — which are
left intact rather than exploded again. -/
theorem claim_C2_amended (df t : Table) (w : List String)
    (h : unpack_jsons df = Except.ok (t, w)) :
    jsonKeysGo t.cols = Except.ok w := by
  unfold unpack_jsons at h
  cases h1 : jsonKeysGo df.cols with
  | error e => rw [h1] at h; simp only [except_bind_err] at h; exact absurd h (by simp)
  | ok keys =>
    rw [h1] at h
    simp only [except_bind_ok] at h
    cases h2 : (if keys.isEmpty then Except.ok df else explodeOnce df keys) with
    | error e => rw [h2] at h; simp only [except_bind_err] at h; exact absurd h (by simp)
    | ok df2 =>
      rw [h2] at h
      simp only [except_bind_ok] at h
      cases h3 : jsonKeysGo df2.cols with
      | error e => rw [h3] at h; simp only [except_bind_err] at h; exact absurd h (by simp)
      | ok warns =>
        rw [h3] at h
        simp only [except_bind_ok] at h
        injection h with h4
        injection h4 with h5 h6
        subst h5
        subst h6
        exact h3

/-- A flat one-column table, fixed point of the single explosion pass. -/
def exC2w : Table := ⟨1, [(("b"), [Value.int 3])]⟩

/-- Closed instance of `claim_C2_amended` on `exC2w`. -/
theorem claim_C2_witness : jsonKeysGo exC2w.cols = Except.ok [] :=
  claim_C2_amended exC2w exC2w [] rfl

/-- A cell that `_is_json` classifies as flat without looking past the
first row: scalars, NaN and nonempty strings. -/
def flatCell : Value → Bool
  | Value.int _ => true
  | Value.bool _ => true
  | Value.null => true
  | Value.str s => !s.isEmpty
  | _ => false

/-- Flatness of a column's FIRST row only. -/
def headFlat : List Value → Bool
  | [] => true
  | v :: _ => flatCell v

lemma obj_of_head (v : Value) (t : List Value) (h : nonObjCell v = false) :
    is_object_dtype (v :: t) = true := by
  unfold is_object_dtype
  simp [h]

lemma colTest_obj (v : Value) (t : List Value) (h : nonObjCell v = false) :
    colTest (v :: t) = isJson (v :: t) := by
  unfold colTest
  rw [obj_of_head v t h]
  simp

lemma headFlat_colTest (c : List Value) (h : headFlat c = true) :
    colTest c = Except.ok false := by
  cases c with
  | nil => rfl
  | cons v t =>
    have hv : flatCell v = true := h
    cases v with
    | int n =>
      unfold colTest
      cases ho : is_object_dtype (Value.int n :: t) <;> simp [isJson, sub0]
    | bool b =>
      unfold colTest
      cases ho : is_object_dtype (Value.bool b :: t) <;> simp [isJson, sub0]
    | null =>
      unfold colTest
      cases ho : is_object_dtype (Value.null :: t) <;> simp [isJson, sub0]
    | str s =>
      have hs : s.isEmpty = false := by
        unfold flatCell at hv
        exact Bool.not_eq_true' .. ▸ hv
      rw [colTest_obj (Value.str s) t rfl]
      simp [isJson, sub0, isRecord, hs]
    | record fs => exact absurd hv (by simp [flatCell])
    | vlist l => exact absurd hv (by simp [flatCell])

lemma headFlat_jsonKeys (cols : List (String × List Value))
    (h : ∀ p ∈ cols, headFlat p.2 = true) : jsonKeysGo cols = Except.ok [] := by
  induction cols with
  | nil => rfl
  | cons p rest ih =>
    obtain ⟨k, c⟩ := p
    unfold jsonKeysGo
    rw [headFlat_colTest c (h (k, c) (List.mem_cons_self _ _))]
    rw [ih (fun q hq => h q (List.mem_cons_of_mem _ hq))]
    rfl

/-- Claim C10: the structured-column decision of `unpack_jsons` inspects
only the first row — (1) the test result never depends on the later rows;
(2) a first row that is a nonempty list is classified by whether its
first element is a record; (3) a table all of whose columns have a flat
first row — even with nested records in later rows — is returned
unchanged with an empty warning list: such columns are neither exploded
nor reported, and explosion and warning use the same test. -/
theorem claim_C10_first_row_test :
    (∀ (v : Value) (t1 t2 : List Value), colTest (v :: t1) = colTest (v :: t2))
    ∧ (∀ (e : Value) (l t : List Value),
        colTest (Value.vlist (e :: l) :: t) = Except.ok (isRecord e))
    ∧ (∀ df : Table, (∀ p ∈ df.cols, headFlat p.2 = true) →
        unpack_jsons df = Except.ok (df, [])) := by
  refine ⟨?_, ?_, ?_⟩
  · intro v t1 t2
    cases v with
    | int n =>
      rw [headFlat_colTest (Value.int n :: t1) rfl, headFlat_colTest (Value.int n :: t2) rfl]
    | bool b =>
      rw [headFlat_colTest (Value.bool b :: t1) rfl, headFlat_colTest (Value.bool b :: t2) rfl]
    | null =>
      rw [headFlat_colTest (Value.null :: t1) rfl, headFlat_colTest (Value.null :: t2) rfl]
    | str s =>
      rw [colTest_obj (Value.str s) t1 rfl, colTest_obj (Value.str s) t2 rfl]
      rfl
    | record fs =>
      rw [colTest_obj (Value.record fs) t1 rfl, colTest_obj (Value.record fs) t2 rfl]
      rfl
    | vlist l =>
      rw [colTest_obj (Value.vlist l) t1 rfl, colTest_obj (Value.vlist l) t2 rfl]
      rfl
  · intro e l t
    rw [colTest_obj (Value.vlist (e :: l)) t rfl]
    rfl
  · intro df h
    have hk := headFlat_jsonKeys df.cols h
    simp [unpack_jsons, hk, except_bind_ok]

/-- A column whose first row is flat but whose second row is a list of
records. -/
def exC10flat : Table :=
  ⟨2, [(("c"), [Value.int 1, Value.vlist [Value.record [(("z"), Value.int 2)]]])]⟩

/-- Closed instance of `claim_C10_first_row_test`: the test is blind to
the tail, and the mixed column is neither exploded nor warned about. -/
theorem claim_C10_witness :
    colTest [Value.int 0] = colTest [Value.int 0, Value.record []]
    ∧ unpack_jsons exC10flat = Except.ok (exC10flat, []) :=
  ⟨claim_C10_first_row_test.1 (Value.int 0) [] [Value.record []],
   claim_C10_first_row_test.2.2 exC10flat (by
     intro p hp
     simp only [exC10flat, List.mem_singleton] at hp
     subst hp
     rfl)⟩

/-!
Claim C5: characterization of one explosion round on a table with a
single structured column whose cells are lists of single-field records.
-/

/-- One stop-time-update-like element: a record with exactly the field
`f` holding a flat value. -/
def goodElem (f : String) : Value → Bool
  | Value.record [(nm, a)] => nm == f && flatCell a
  | _ => false

/-- The payload of such an element. -/
def aOf : Value → Value
  | Value.record ((_, a) :: _) => a
  | _ => Value.null

/-- A good cell of the structured column: a list of good elements. -/
def goodJVal (f : String) : Value → Bool
  | Value.vlist l => l.all (goodElem f)
  | _ => false

/-- Whether a cell is a NONEMPTY list (required of the first row for the
column to be detected at all). -/
def headNonempty : Value → Bool
  | Value.vlist (_ :: _) => true
  | _ => false

/-- The payloads contributed by one cell. -/
def xsOne : Value → List Value
  | Value.vlist l => l.map aOf
  | _ => []

/-- The number of child rows one cell yields (`len(this_unpack)`). -/
def vLen : Value → Nat
  | Value.vlist l => l.length
  | _ => 0

/-- The frame `pd.json_normalize` produces from one good cell. -/
def jnT (f : String) (v : Value) : Table :=
  ⟨(xsOne v).length, if (xsOne v).isEmpty then [] else [(f, xsOne v)]⟩

/-- The `indexes` list of `unpack_jsons` on such a table: each row label
repeated once per element of its list — an empty list contributes
nothing, an n-element list n copies. -/
def explodeIndexesGo (i : Nat) : List Value → List Nat
  | [] => []
  | v :: rest => List.replicate (vLen v) i ++ explodeIndexesGo (i + 1) rest

lemma xsOne_length (v : Value) : (xsOne v).length = vLen v := by
  cases v <;> simp [xsOne, vLen]

lemma getD_eq_drop_headD {α : Type} (l : List α) :
    ∀ (i : Nat) (d : α), l.getD i d = (l.drop i).headD d := by
  induction l with
  | nil => intro i d; cases i <;> rfl
  | cons a t ih =>
    intro i d
    cases i with
    | zero => rfl
    | succ j => exact ih j d

lemma flat_getD (c : List Value) (h : ∀ v ∈ c, flatCell v = true) (i : Nat) :
    flatCell (c.getD i Value.null) = true := by
  induction c generalizing i with
  | nil => cases i <;> rfl
  | cons v t ih =>
    cases i with
    | zero => exact h v (List.mem_cons_self _ _)
    | succ j => exact ih (fun w hw => h w (List.mem_cons_of_mem _ hw)) j

lemma allFlat_headFlat (c : List Value) (h : ∀ v ∈ c, flatCell v = true) :
    headFlat c = true := by
  cases c with
  | nil => rfl
  | cons v t => exact h v (List.mem_cons_self _ _)

lemma unionNames_acc_mem (f : String) (rest : List String) (h : ∀ x ∈ rest, x = f) :
    unionNamesGo [f] rest = [f] := by
  induction rest with
  | nil => rfl
  | cons x r ih =>
    have hx : x = f := h x (List.mem_cons_self _ _)
    subst hx
    unfold unionNamesGo
    have hc : List.contains [x] x = true := by simp
    rw [hc]
    simp only [if_true]
    exact ih (fun y hy => h y (List.mem_cons_of_mem _ hy))

lemma unionNames_fs (f : String) (l : List String) (h : ∀ x ∈ l, x = f) :
    unionNamesGo [] l = if l.isEmpty then [] else [f] := by
  cases l with
  | nil => rfl
  | cons x rest =>
    have hx : x = f := h x (List.mem_cons_self _ _)
    subst hx
    exact unionNames_acc_mem x rest (fun y hy => h y (List.mem_cons_of_mem _ hy))

lemma flattenFields_single (nm : String) (a : Value) (ha : flatCell a = true) :
    flattenFields [(nm, a)] = [(nm, a)] := by
  cases a with
  | record fs => exact absurd ha (by simp [flatCell])
  | vlist l => exact absurd ha (by simp [flatCell])
  | null => rfl
  | bool b => rfl
  | int n => rfl
  | str s => rfl

lemma recordRows_good (f : String) (l : List Value) (hl : ∀ e ∈ l, goodElem f e = true) :
    recordRows l = Except.ok (l.map (fun e => [(f, aOf e)])) := by
  induction l with
  | nil => rfl
  | cons e rest ih =>
    have he : goodElem f e = true := hl e (List.mem_cons_self _ _)
    cases e with
    | null => exact absurd he (by simp [goodElem])
    | bool b => exact absurd he (by simp [goodElem])
    | int n => exact absurd he (by simp [goodElem])
    | str s => exact absurd he (by simp [goodElem])
    | vlist l2 => exact absurd he (by simp [goodElem])
    | record fs =>
      cases fs with
      | nil => exact absurd he (by simp [goodElem])
      | cons q fs2 =>
        obtain ⟨nm, a⟩ := q
        cases fs2 with
        | cons q2 fs3 => exact absurd he (by simp [goodElem])
        | nil =>
          unfold goodElem at he
          have hnm : nm = f := by
            have := (Bool.and_eq_true _ _).mp he
            exact eq_of_beq this.1
          have hfa : flatCell a = true := ((Bool.and_eq_true _ _).mp he).2
          subst hnm
          unfold recordRows
          rw [ih (fun y hy => hl y (List.mem_cons_of_mem _ hy))]
          rw [flattenFields_single nm a hfa]
          rfl

lemma lookupField_single (f : String) (a : Value) : lookupField [(f, a)] f = a := by
  unfold lookupField
  simp

lemma buildTable_uniform (f : String) (xs : List Value) :
    buildTable (xs.map (fun a => [(f, a)])) =
      ⟨xs.length, if xs.isEmpty then [] else [(f, xs)]⟩ := by
  unfold buildTable
  have hflat : (xs.map (fun a => [(f, a)])).flatMap (fun r => r.map Prod.fst)
      = xs.map (fun _ => f) := by
    induction xs with
    | nil => rfl
    | cons a t ih => simp only [List.map_cons, List.flatMap_cons, ih]; rfl
  have hnames : unionNamesGo [] ((xs.map (fun a => [(f, a)])).flatMap (fun r => r.map Prod.fst))
      = if xs.isEmpty then [] else [f] := by
    rw [hflat]
    rw [unionNames_fs f (xs.map (fun _ => f))
      (by intro x hx; obtain ⟨a, ha, he⟩ := List.mem_map.mp hx; exact he.symm)]
    cases xs <;> rfl
  rw [hnames]
  cases hxe : xs.isEmpty with
  | true =>
    have : xs = [] := by cases xs with | nil => rfl | cons a t => exact absurd hxe (by simp)
    subst this
    rfl
  | false =>
    simp only [Bool.false_eq_true, if_false]
    congr 1
    · simp
    · simp only [List.map_cons, List.map_nil]
      congr 2
      rw [List.map_map]
      have : ∀ a ∈ xs, (lookupField [(f, a)] f) = a := fun a _ => lookupField_single f a
      calc xs.map (fun a => lookupField [(f, a)] f) = xs.map (fun a => a) :=
            List.map_congr_left (fun a _ => lookupField_single f a)
        _ = xs := List.map_id' xs

lemma json_normalize_good (f : String) (v : Value) (hg : goodJVal f v = true) :
    json_normalize v = Except.ok (jnT f v) := by
  cases v with
  | null => exact absurd hg (by simp [goodJVal])
  | bool b => exact absurd hg (by simp [goodJVal])
  | int n => exact absurd hg (by simp [goodJVal])
  | str s => exact absurd hg (by simp [goodJVal])
  | record fs => exact absurd hg (by simp [goodJVal])
  | vlist l =>
    simp only [goodJVal] at hg
    simp only [json_normalize]
    rw [recordRows_good f l (fun e he => (List.all_eq_true.mp hg) e he)]
    have hmm : l.map (fun e => [(f, aOf e)]) = (l.map aOf).map (fun a => [(f, a)]) := by
      rw [List.map_map]
      rfl
    show Except.ok (buildTable (l.map (fun e => [(f, aOf e)]))) = Except.ok (jnT f (Value.vlist l))
    rw [hmm, buildTable_uniform f (l.map aOf)]
    unfold jnT xsOne
    simp

lemma colTest_good (f : String) (jvals : List Value)
    (hj : ∀ v ∈ jvals, goodJVal f v = true)
    (hh : headNonempty (jvals.headD Value.null) = true) :
    colTest jvals = Except.ok true := by
  cases jvals with
  | nil => exact absurd hh (by simp [headNonempty])
  | cons v rest =>
    cases v with
    | null => exact absurd hh (by simp [headNonempty])
    | bool b => exact absurd hh (by simp [headNonempty])
    | int n => exact absurd hh (by simp [headNonempty])
    | str s => exact absurd hh (by simp [headNonempty])
    | record fs => exact absurd hh (by simp [headNonempty])
    | vlist l =>
      cases l with
      | nil => exact absurd hh (by simp [headNonempty])
      | cons e l2 =>
        have hg : goodJVal f (Value.vlist (e :: l2)) = true :=
          hj _ (List.mem_cons_self _ _)
        cases e with
        | record fs =>
          rw [colTest_obj (Value.vlist (Value.record fs :: l2)) rest rfl]
          rfl
        | null => exact absurd hg (by simp [goodJVal, goodElem])
        | bool b => exact absurd hg (by simp [goodJVal, goodElem])
        | int n => exact absurd hg (by simp [goodJVal, goodElem])
        | str s => exact absurd hg (by simp [goodJVal, goodElem])
        | vlist l3 => exact absurd hg (by simp [goodJVal, goodElem])

lemma getColD_last (parents : List (String × List Value)) (k : String)
    (jvals : List Value) (n : Nat) (hp : ∀ p ∈ parents, p.1 ≠ k) :
    getColD ⟨n, parents ++ [(k, jvals)]⟩ k = jvals := by
  unfold getColD
  induction parents with
  | nil => simp
  | cons p rest ih =>
    rw [List.cons_append]
    rw [List.find?_cons_of_neg]
    · exact ih (fun q hq => hp q (List.mem_cons_of_mem _ hq))
    · have : p.1 ≠ k := hp p (List.mem_cons_self _ _)
      simp [this]

lemma jsonKeys_single (parents : List (String × List Value)) (k : String)
    (jvals : List Value)
    (hp : ∀ p ∈ parents, ∀ v ∈ p.2, flatCell v = true)
    (hct : colTest jvals = Except.ok true) :
    jsonKeysGo (parents ++ [(k, jvals)]) = Except.ok [k] := by
  induction parents with
  | nil =>
    show jsonKeysGo [(k, jvals)] = Except.ok [k]
    unfold jsonKeysGo
    rw [hct]
    rfl
  | cons p rest ih =>
    obtain ⟨nm, c⟩ := p
    have h1 : colTest c = Except.ok false :=
      headFlat_colTest c (allFlat_headFlat c
        (fun v hv => hp (nm, c) (List.mem_cons_self _ _) v hv))
    have h2 := ih (fun q hq => hp q (List.mem_cons_of_mem _ hq))
    rw [List.cons_append]
    unfold jsonKeysGo
    rw [h1, h2]
    rfl

lemma getCell_lt (col : List Value) (ix : Nat) (h : ix < col.length) :
    getCell col ix = Except.ok (col.getD ix Value.null) := by
  unfold getCell
  rw [List.getElem?_eq_getElem h]
  rw [List.getD_eq_getElem?_getD, List.getElem?_eq_getElem h]
  rfl

lemma getD_mem (col : List Value) (ix : Nat) (h : ix < col.length) :
    col.getD ix Value.null ∈ col := by
  rw [List.getD_eq_getElem?_getD, List.getElem?_eq_getElem h]
  exact List.getElem_mem h

lemma unpackCells_single (df : Table) (k f : String) (jvals : List Value)
    (hcol : getColD df k = jvals)
    (hj : ∀ v ∈ jvals, goodJVal f v = true) :
    ∀ (ixs : List Nat), (∀ i ∈ ixs, i < jvals.length) →
    unpackCellsGo df [k] ixs
      = Except.ok (ixs.map (fun i => [jnT f (jvals.getD i Value.null)])) := by
  intro ixs
  induction ixs with
  | nil => intro; rfl
  | cons i rest ih =>
    intro hlt
    have hilt : i < jvals.length := hlt i (List.mem_cons_self _ _)
    have hrow : unpackRowGo df i [k] = Except.ok [jnT f (jvals.getD i Value.null)] := by
      unfold unpackRowGo
      rw [hcol, getCell_lt jvals i hilt]
      simp only [except_bind_ok]
      rw [json_normalize_good f (jvals.getD i Value.null) (hj _ (getD_mem jvals i hilt))]
      simp only [except_bind_ok]
      rfl
    unfold unpackCellsGo
    rw [hrow]
    simp only [except_bind_ok]
    rw [ih (fun j hj2 => hlt j (List.mem_cons_of_mem _ hj2))]
    rfl

lemma indexesOf_map (g : Nat → Table) :
    ∀ (ixs : List Nat),
    indexesOf ixs (ixs.map (fun i => [g i]))
      = ixs.flatMap (fun i => List.replicate (g i).nrows i) := by
  intro ixs
  induction ixs with
  | nil => rfl
  | cons i rest ih =>
    simp only [List.map_cons, List.flatMap_cons]
    unfold indexesOf
    rw [ih]
    simp

lemma explode_aux :
    ∀ (suf : List Value) (i0 : Nat) (full : List Value), full.drop i0 = suf →
    (List.range' i0 suf.length).flatMap
        (fun i => List.replicate (vLen (full.getD i Value.null)) i)
      = explodeIndexesGo i0 suf := by
  intro suf
  induction suf with
  | nil => intro i0 full h; rfl
  | cons v rest ih =>
    intro i0 full hdrop
    have h1 : full.getD i0 Value.null = v := by
      rw [getD_eq_drop_headD, hdrop]
      rfl
    have h2 : full.drop (i0 + 1) = rest := by
      have h3 : (full.drop i0).drop 1 = rest := by rw [hdrop]; rfl
      rw [List.drop_drop] at h3
      exact h3
    show (List.range' i0 (rest.length + 1)).flatMap _ = _
    rw [List.range'_succ]
    rw [List.flatMap_cons]
    rw [h1, ih (i0 + 1) full h2]
    rfl

lemma colNamesT_jnT (f : String) (v : Value) :
    colNamesT (jnT f v) = if (xsOne v).isEmpty then [] else [f] := by
  unfold colNamesT jnT
  cases hE : (xsOne v).isEmpty <;> simp

lemma headNonempty_xsOne (v : Value) (h : headNonempty v = true) :
    (xsOne v).isEmpty = false := by
  cases v with
  | vlist l =>
    cases l with
    | nil => exact absurd h (by simp [headNonempty])
    | cons e l2 => rfl
  | null => exact absurd h (by simp [headNonempty])
  | bool b => exact absurd h (by simp [headNonempty])
  | int n => exact absurd h (by simp [headNonempty])
  | str s => exact absurd h (by simp [headNonempty])
  | record fs => exact absurd h (by simp [headNonempty])

lemma vconcat_cols_jnT (f : String) (vs : List Value) :
    (vs.map (jnT f)).flatMap (fun t =>
        match findCol t f with
        | some c => c
        | none => List.replicate t.nrows Value.null)
      = vs.flatMap xsOne := by
  induction vs with
  | nil => rfl
  | cons v rest ih =>
    simp only [List.map_cons, List.flatMap_cons]
    rw [ih]
    congr 1
    cases hE : (xsOne v).isEmpty with
    | true =>
      have hxe : xsOne v = [] := List.isEmpty_iff.mp hE
      unfold jnT findCol
      rw [hE]
      simp [hxe]
    | false =>
      unfold jnT findCol
      rw [hE]
      simp

lemma vconcat_nrows_jnT (f : String) (vs : List Value) :
    ((vs.map (jnT f)).map Table.nrows).sum = (vs.flatMap xsOne).length := by
  induction vs with
  | nil => rfl
  | cons v rest ih =>
    simp only [List.map_cons, List.sum_cons, List.flatMap_cons, List.length_append]
    rw [ih]
    rfl

lemma vconcat_jnT (f : String) (vs : List Value)
    (hh : headNonempty (vs.headD Value.null) = true) :
    vconcat (vs.map (jnT f))
      = ⟨(vs.flatMap xsOne).length, [(f, vs.flatMap xsOne)]⟩ := by
  have hall : ∀ x ∈ (vs.map (jnT f)).flatMap colNamesT, x = f := by
    intro x hx
    rw [List.mem_flatMap] at hx
    obtain ⟨t, ht, hxt⟩ := hx
    obtain ⟨v, hv, rfl⟩ := List.mem_map.mp ht
    rw [colNamesT_jnT] at hxt
    cases hE : (xsOne v).isEmpty with
    | true => rw [hE] at hxt; exact absurd hxt (by simp)
    | false => rw [hE] at hxt; simpa using hxt
  have hne : ((vs.map (jnT f)).flatMap colNamesT).isEmpty = false := by
    cases vs with
    | nil => exact absurd hh (by simp [headNonempty])
    | cons v0 rest =>
      have h0 : (xsOne v0).isEmpty = false := headNonempty_xsOne v0 hh
      simp only [List.map_cons, List.flatMap_cons, colNamesT_jnT, h0]
      simp
  have hnames : unionNamesGo [] ((vs.map (jnT f)).flatMap colNamesT) = [f] := by
    rw [unionNames_fs f _ hall, hne]
    rfl
  unfold vconcat
  rw [hnames]
  congr 1
  · exact vconcat_nrows_jnT f vs
  · simp only [List.map_cons, List.map_nil]
    rw [vconcat_cols_jnT f vs]

lemma dropped_parents (parents : List (String × List Value)) (k : String)
    (jvals : List Value) (n : Nat) (hp : ∀ p ∈ parents, p.1 ≠ k) :
    droppedCols ⟨n, parents ++ [(k, jvals)]⟩ [k] = ⟨n, parents⟩ := by
  unfold droppedCols
  congr 1
  rw [List.filter_append]
  have h1 : List.filter (fun p => !(List.contains [k] p.1)) [(k, jvals)] = [] := by
    simp
  have h2 : List.filter (fun p => !(List.contains [k] p.1)) parents = parents := by
    rw [List.filter_eq_self]
    intro p hp2
    have : p.1 ≠ k := hp p hp2
    simp [this]
  rw [h1, h2, List.append_nil]

lemma padTo_self (c : List Value) (m : Nat) (h : c.length = m) : padTo m c = c := by
  unfold padTo
  rw [h, Nat.sub_self]
  simp

lemma explodeIndexes_length (vs : List Value) :
    ∀ i0, (explodeIndexesGo i0 vs).length = (vs.flatMap xsOne).length := by
  induction vs with
  | nil => intro; rfl
  | cons v rest ih =>
    intro i0
    simp only [explodeIndexesGo, List.flatMap_cons, List.length_append,
      List.length_replicate]
    rw [ih (i0 + 1), xsOne_length]

lemma xs_flat (f : String) (jvals : List Value)
    (hj : ∀ v ∈ jvals, goodJVal f v = true) :
    ∀ x ∈ jvals.flatMap xsOne, flatCell x = true := by
  intro x hx
  rw [List.mem_flatMap] at hx
  obtain ⟨u, hu, hxu⟩ := hx
  have hg := hj u hu
  cases u with
  | null => exact absurd hg (by simp [goodJVal])
  | bool b => exact absurd hg (by simp [goodJVal])
  | int n => exact absurd hg (by simp [goodJVal])
  | str s => exact absurd hg (by simp [goodJVal])
  | record fs => exact absurd hg (by simp [goodJVal])
  | vlist l =>
    simp only [goodJVal] at hg
    simp only [xsOne] at hxu
    obtain ⟨e, he, rfl⟩ := List.mem_map.mp hxu
    have hge : goodElem f e = true := List.all_eq_true.mp hg e he
    cases e with
    | null => exact absurd hge (by simp [goodElem])
    | bool b => exact absurd hge (by simp [goodElem])
    | int n => exact absurd hge (by simp [goodElem])
    | str s => exact absurd hge (by simp [goodElem])
    | vlist l3 => exact absurd hge (by simp [goodElem])
    | record fs =>
      cases fs with
      | nil => exact absurd hge (by simp [goodElem])
      | cons q fs2 =>
        obtain ⟨nm, a⟩ := q
        cases fs2 with
        | cons q2 fs3 => exact absurd hge (by simp [goodElem])
        | nil =>
          unfold goodElem at hge
          exact ((Bool.and_eq_true _ _).mp hge).2

lemma hconcat_two (A B : Table) (h : A.nrows = B.nrows)
    (hA : ∀ p ∈ A.cols, p.2.length = A.nrows)
    (hB : ∀ p ∈ B.cols, p.2.length = B.nrows) :
    hconcat [A, B] = ⟨B.nrows, A.cols ++ B.cols⟩ := by
  have hm : ([A, B].map Table.nrows).foldl Nat.max 0 = B.nrows := by
    show Nat.max (Nat.max 0 A.nrows) B.nrows = B.nrows
    rw [h]
    simp
  unfold hconcat
  rw [hm]
  congr 1
  simp only [List.flatMap_cons, List.flatMap_nil, List.append_nil]
  have hmapA : A.cols.map (fun p => (p.1, padTo B.nrows p.2)) = A.cols := by
    calc A.cols.map (fun p => (p.1, padTo B.nrows p.2))
        = A.cols.map (fun p => p) :=
          List.map_congr_left (fun p hp => by rw [padTo_self p.2 B.nrows (by rw [hA p hp, h])])
      _ = A.cols := List.map_id' _
  have hmapB : B.cols.map (fun p => (p.1, padTo B.nrows p.2)) = B.cols := by
    calc B.cols.map (fun p => (p.1, padTo B.nrows p.2))
        = B.cols.map (fun p => p) :=
          List.map_congr_left (fun p hp => by rw [padTo_self p.2 B.nrows (hB p hp)])
      _ = B.cols := List.map_id' _
  rw [hmapA, hmapB]

lemma range_map_getD {α β : Type} (g : α → β) (d : α) :
    ∀ (suf : List α) (i0 : Nat) (full : List α), full.drop i0 = suf →
    (List.range' i0 suf.length).map (fun i => g (full.getD i d)) = suf.map g := by
  intro suf
  induction suf with
  | nil => intros; rfl
  | cons v rest ih =>
    intro i0 full hdrop
    have h1 : full.getD i0 d = v := by
      rw [getD_eq_drop_headD, hdrop]
      rfl
    have h2 : full.drop (i0 + 1) = rest := by
      have h3 : (full.drop i0).drop 1 = rest := by rw [hdrop]; rfl
      rw [List.drop_drop] at h3
      exact h3
    show (List.range' i0 (rest.length + 1)).map _ = _
    rw [List.range'_succ, List.map_cons, h1, ih (i0 + 1) full h2]
    rfl

lemma allFlat_jsonKeys (cols : List (String × List Value))
    (h : ∀ p ∈ cols, ∀ v ∈ p.2, flatCell v = true) :
    jsonKeysGo cols = Except.ok [] :=
  headFlat_jsonKeys cols (fun p hp => allFlat_headFlat p.2 (h p hp))

/-- All payloads of one explosion round on a single structured column. -/
def xsOf (jvals : List Value) : List Value := jvals.flatMap xsOne

/-- Claim C5 (amended: one to-be-exploded column): on a table whose only
structured column `k` holds lists of single-field (`f`) records — the
first row's list nonempty so the column is detected — `unpack_jsons`
yields, with no warnings, exactly one output row per list element: the
`indexes` replication gives every parent column its row-`i` value
repeated `len(list_i)` times (an empty list contributing ZERO rows, an
n-element list n rows), and one new column `k_f` holding the elements'
payloads in order. -/
theorem claim_C5_amended (parents : List (String × List Value)) (k f : String)
    (jvals : List Value)
    (hp : ∀ p ∈ parents, p.1 ≠ k ∧ ∀ v ∈ p.2, flatCell v = true)
    (hj : ∀ v ∈ jvals, goodJVal f v = true)
    (hh : headNonempty (jvals.headD Value.null) = true) :
    unpack_jsons ⟨jvals.length, parents ++ [(k, jvals)]⟩
      = Except.ok
          (⟨(xsOf jvals).length,
            parents.map (fun p =>
              (p.1, (explodeIndexesGo 0 jvals).map (fun i => p.2.getD i Value.null)))
            ++ [(k ++ "_" ++ f, xsOf jvals)]⟩,
           []) := by
  simp only [xsOf]
  have hp1 : ∀ p ∈ parents, p.1 ≠ k := fun p h2 => (hp p h2).1
  have hp2 : ∀ p ∈ parents, ∀ v ∈ p.2, flatCell v = true := fun p h2 => (hp p h2).2
  have hkeys : jsonKeysGo (parents ++ [(k, jvals)]) = Except.ok [k] :=
    jsonKeys_single parents k jvals hp2 (colTest_good f jvals hj hh)
  have hcol : getColD ⟨jvals.length, parents ++ [(k, jvals)]⟩ k = jvals :=
    getColD_last parents k jvals jvals.length hp1
  have hcells : unpackCellsGo ⟨jvals.length, parents ++ [(k, jvals)]⟩ [k]
        (List.range jvals.length)
      = Except.ok ((List.range jvals.length).map
          (fun i => [jnT f (jvals.getD i Value.null)])) :=
    unpackCells_single _ k f jvals hcol hj (List.range jvals.length)
      (fun i hi => List.mem_range.mp hi)
  have hidx : indexesOf (List.range jvals.length)
        ((List.range jvals.length).map (fun i => [jnT f (jvals.getD i Value.null)]))
      = explodeIndexesGo 0 jvals := by
    rw [indexesOf_map (fun i => jnT f (jvals.getD i Value.null)) (List.range jvals.length)]
    have h2 : (List.range jvals.length).flatMap
        (fun i => List.replicate (jnT f (jvals.getD i Value.null)).nrows i)
        = (List.range' 0 jvals.length).flatMap
            (fun i => List.replicate (vLen (jvals.getD i Value.null)) i) := by
      rw [List.range_eq_range']
      congr 1
      funext i
      rw [show (jnT f (jvals.getD i Value.null)).nrows
            = (xsOne (jvals.getD i Value.null)).length from rfl,
          xsOne_length]
    rw [h2]
    exact explode_aux jvals 0 jvals rfl
  have hcoc : colOfCells ((List.range jvals.length).map
        (fun i => [jnT f (jvals.getD i Value.null)])) 0 = jvals.map (jnT f) := by
    unfold colOfCells
    rw [List.map_map, List.range_eq_range']
    exact range_map_getD (jnT f) Value.null jvals 0 jvals rfl
  have hEX : (explodeIndexesGo 0 jvals).length = (jvals.flatMap xsOne).length :=
    explodeIndexes_length jvals 0
  have hexp : explodeOnce ⟨jvals.length, parents ++ [(k, jvals)]⟩ [k]
      = Except.ok ⟨(jvals.flatMap xsOne).length,
          parents.map (fun p =>
            (p.1, (explodeIndexesGo 0 jvals).map (fun i => p.2.getD i Value.null)))
          ++ [(k ++ "_" ++ f, jvals.flatMap xsOne)]⟩ := by
    unfold explodeOnce
    rw [show (Table.mk jvals.length (parents ++ [(k, jvals)])).nrows = jvals.length from rfl]
    rw [hcells]
    simp only [except_bind_ok]
    rw [hidx]
    rw [dropped_parents parents k jvals jvals.length hp1]
    rw [show unpackedTablesGo ((List.range jvals.length).map
          (fun i => [jnT f (jvals.getD i Value.null)])) [k] 0
        = [renameAllPrefixed k (vconcat (colOfCells ((List.range jvals.length).map
            (fun i => [jnT f (jvals.getD i Value.null)])) 0))] from rfl]
    rw [hcoc]
    rw [vconcat_jnT f jvals hh]
    rw [show renameAllPrefixed k
          ⟨(jvals.flatMap xsOne).length, [(f, jvals.flatMap xsOne)]⟩
        = (⟨(jvals.flatMap xsOne).length,
            [(k ++ "_" ++ f, jvals.flatMap xsOne)]⟩ : Table) from rfl]
    rw [show ilocT ⟨jvals.length, parents⟩ (explodeIndexesGo 0 jvals)
        = (⟨(explodeIndexesGo 0 jvals).length,
            parents.map (fun p =>
              (p.1, (explodeIndexesGo 0 jvals).map (fun i => p.2.getD i Value.null)))⟩
            : Table) from rfl]
    rw [hconcat_two
          ⟨(explodeIndexesGo 0 jvals).length,
            parents.map (fun p =>
              (p.1, (explodeIndexesGo 0 jvals).map (fun i => p.2.getD i Value.null)))⟩
          ⟨(jvals.flatMap xsOne).length, [(k ++ "_" ++ f, jvals.flatMap xsOne)]⟩
          hEX
          (by
            intro p hp3
            obtain ⟨q, hq, rfl⟩ := List.mem_map.mp hp3
            simp)
          (by
            intro p hp3
            rw [List.mem_singleton] at hp3
            subst hp3
            rfl)]
  have hwarn : jsonKeysGo
        (parents.map (fun p =>
            (p.1, (explodeIndexesGo 0 jvals).map (fun i => p.2.getD i Value.null)))
          ++ [(k ++ "_" ++ f, jvals.flatMap xsOne)]) = Except.ok [] := by
    apply allFlat_jsonKeys
    intro p hp3
    rcases List.mem_append.mp hp3 with h4 | h4
    · obtain ⟨q, hq, rfl⟩ := List.mem_map.mp h4
      intro v hv
      obtain ⟨i, hi, rfl⟩ := List.mem_map.mp hv
      exact flat_getD q.2 (hp2 q hq) i
    · rw [List.mem_singleton] at h4
      subst h4
      exact xs_flat f jvals hj
  unfold unpack_jsons
  rw [show (Table.mk jvals.length (parents ++ [(k, jvals)])).cols
      = parents ++ [(k, jvals)] from rfl]
  rw [hkeys]
  simp only [except_bind_ok]
  rw [if_neg (by simp)]
  rw [hexp]
  simp only [except_bind_ok]
  rw [hwarn]
  simp only [except_bind_ok]

/-- A one-row table with TWO structured columns, each holding a
one-element list of records. -/
def exC5two : Table :=
  ⟨1, [(("a"), [Value.vlist [Value.record [(("x"), Value.int 1)]]]),
       (("b"), [Value.vlist [Value.record [(("y"), Value.int 2)]]])]⟩

/-- Claim C5 counterexample: with two to-be-exploded columns the shared
`indexes` accumulator counts the row once per column, so the single
parent row of `exC5two` yields TWO output rows (NaN-padded on each
exploded column), not the one row per list element the claim promises
for every input table. -/
theorem claim_C5_counterexample :
    unpack_jsons exC5two
      = Except.ok (⟨2, [(("a_x"), [Value.int 1, Value.null]),
                        (("b_y"), [Value.int 2, Value.null])]⟩, [])
    ∧ (2 : Nat) ≠ 1 := ⟨rfl, by decide⟩

/-- The structured column of the witness: a 3-element list of `x`
records in row 0 and an empty list in row 1. -/
def exC5w_jvals : List Value :=
  [Value.vlist [Value.record [(("x"), Value.int 1)], Value.record [(("x"), Value.int 2)],
    Value.record [(("x"), Value.int 3)]],
   Value.vlist []]

/-- Closed instance of `claim_C5_amended`: the 3-element row yields 3
rows sharing the parent `id` 7 with column `stu_x` holding 1,2,3; the
empty-list row (parent `id` 8) contributes zero rows. -/
theorem claim_C5_witness :
    unpack_jsons ⟨2, [(("id"), [Value.int 7, Value.int 8]), (("stu"), exC5w_jvals)]⟩
      = Except.ok (⟨3, [(("id"), [Value.int 7, Value.int 7, Value.int 7]),
                        (("stu_x"), [Value.int 1, Value.int 2, Value.int 3])]⟩, []) := by
  have h := claim_C5_amended [(("id"), [Value.int 7, Value.int 8])] ("stu") ("x")
    exC5w_jvals
    (by
      intro p hpm
      rw [List.mem_singleton] at hpm
      subst hpm
      refine ⟨by decide, ?_⟩
      intro v hv
      rcases List.mem_cons.mp hv with rfl | hv2
      · rfl
      · rcases List.mem_cons.mp hv2 with rfl | hv3
        · rfl
        · exact absurd hv3 (by simp))
    (by
      intro v hv
      rcases List.mem_cons.mp hv with rfl | hv2
      · rfl
      · rcases List.mem_cons.mp hv2 with rfl | hv3
        · rfl
        · exact absurd hv3 (by simp))
    rfl
  exact h
